import Mathlib

/-!
Verification development for the EncryptedSearch repository: a shallow
embedding of the searchable-encryption retrieval engine (normalization,
prefix enumeration, key derivation, the encrypt/decrypt JSON pipeline,
and the four-mode benchmark engine of src/lib/benchmark.ts), together
with theorems settling the specification claims.

Conventions of the embedding:
- JS strings are Lean `String`s handled at code-point level via `String.data`.
- Byte arrays (`Uint8Array`) are `List Nat` with values below 256.
- Machine timing: every awaited external operation (store read, cache
  read/write, WebCrypto call) takes a duration supplied by an `Env` record
  of abstract costs; pure in-memory computation between two `now()` reads of
  the same phase contributes the cost the environment assigns to that phase.
  The monotonic clock is threaded explicitly as a `Nat`.
- External collaborators (Firestore, IndexedDB, WebCrypto, JSON) are
  modelled at their interface boundary, as the spec directs.
-/

namespace EncryptedSearch

/-! ## String utilities (src/unnamed/part_003: normalize, prefixes) -/

/-- Whitespace test modelling the JavaScript regular expression class
of blank characters used by `trim` and the whitespace-collapsing
replace in `normalize` (ASCII blanks suffice for this development). -/
def isJsWs (c : Char) : Bool :=
  c = ' ' || c = '\t' || c = '\n' || c = '\r'

/-- Core of the whitespace-collapsing replace: every maximal run of
blanks becomes a single space. The flag records whether the previous
character was part of a blank run already emitted. -/
def collapseGo : Bool → List Char → List Char
  | _, [] => []
  | inWs, c :: rest =>
    if isJsWs c then
      if inWs then collapseGo true rest else ' ' :: collapseGo true rest
    else c :: collapseGo false rest

/-- Model of `value.replace(/\s+/g, " ")` on a character list. -/
def collapseWs (l : List Char) : List Char := collapseGo false l

/-- Model of `String.prototype.trim`: drop blanks from both ends. -/
def jsTrim (l : List Char) : List Char :=
  ((l.dropWhile isJsWs).reverse.dropWhile isJsWs).reverse

/-- Model of `Char` lowercasing as used by `String.prototype.toLowerCase`
(ASCII case mapping, which is what the benchmark data exercises). -/
def jsLower (l : List Char) : List Char := l.map Char.toLower

/-- `normalize` from src/unnamed/part_003:
`value.trim().toLowerCase().replace(/\s+/g, " ")`. -/
def normalize (value : String) : String :=
  String.mk (collapseWs (jsLower (jsTrim value.data)))

/-- `prefixes` from src/unnamed/part_003: the normalized text's prefixes
`slice(0, i)` for `i = 1 .. min maxLen (length norm)`. -/
def prefixes (value : String) (maxLen : Nat := 20) : List String :=
  let norm := normalize value
  let cap := min maxLen norm.data.length
  (List.range cap).map (fun i => String.mk (norm.data.take (i + 1)))

/-- Model of `String.prototype.startsWith` at code-point level. -/
def jsStartsWith (s : String) (pre : String) : Bool :=
  pre.data.isPrefixOf s.data

/-! ## chunk (src/lib/utils.ts) -/

/-- Fuel-indexed core of `chunk`: group a list into consecutive slices of
`size` elements. The fuel only serves structural recursion; `size = 0`
yields `[]` here because the source loop does not terminate there (that
behaviour is captured separately by `chunkLoop`). -/
def chunkAux (size : Nat) : Nat → List α → List (List α)
  | 0, _ => []
  | _, [] => []
  | fuel + 1, x :: xs => (x :: xs).take size :: chunkAux size fuel ((x :: xs).drop size)

/-- `chunk` from src/lib/utils.ts, as the total function it computes for
a positive group size (the engine always calls it with size 10). -/
def chunk (items : List α) (size : Nat) : List (List α) :=
  chunkAux size items.length items

/-- Model of `Array.prototype.slice(s, e)` with JavaScript index clamping
(negative indices count from the end). -/
def jsSlice (l : List α) (s e : Int) : List α :=
  let n : Int := l.length
  let s1 := (if s < 0 then max (n + s) 0 else min s n).toNat
  let e1 := (if e < 0 then max (n + e) 0 else min e n).toNat
  (l.take e1).drop s1

/-- Literal step-for-step model of the `chunk` source loop
`for (let i = 0; i < items.length; i += size) out.push(items.slice(i, i + size))`,
with explicit fuel: `none` means the loop has not finished within `fuel`
iterations. The index and the size are integers, as in JavaScript. -/
def chunkLoop (items : List α) (size : Int) : Nat → Int → List (List α) → Option (List (List α))
  | 0, _, _ => none
  | fuel + 1, i, out =>
    if i < (items.length : Int) then
      chunkLoop items size fuel (i + size) (out ++ [jsSlice items i (i + size)])
    else
      some out

theorem chunkAux_stable (size : Nat) (hs : 1 ≤ size) :
    ∀ f g (l : List α), l.length ≤ f → l.length ≤ g → chunkAux size f l = chunkAux size g l := by
  intro f
  induction f with
  | zero =>
    intro g l hf _
    have : l = [] := List.length_eq_zero.mp (Nat.le_zero.mp hf)
    subst this
    cases g <;> rfl
  | succ f ih =>
    intro g l hf hg
    cases l with
    | nil => cases g <;> rfl
    | cons x xs =>
      cases g with
      | zero => exact absurd hg (by simp)
      | succ g =>
        simp only [chunkAux]
        refine congrArg _ (ih g _ ?_ ?_)
        · simp only [List.length_drop, List.length_cons] at hf ⊢
          omega
        · simp only [List.length_drop, List.length_cons] at hg ⊢
          omega

theorem chunk_cons (size : Nat) (hs : 1 ≤ size) (l : List α) (hl : l ≠ []) :
    chunk l size = l.take size :: chunk (l.drop size) size := by
  cases l with
  | nil => exact absurd rfl hl
  | cons x xs =>
    show chunkAux size (xs.length + 1) (x :: xs) = _
    simp only [chunkAux]
    refine congrArg _ (chunkAux_stable size hs _ _ _ ?_ ?_) <;>
      · simp only [List.length_drop, List.length_cons]
        omega

theorem chunkAux_flatten (size : Nat) (hs : 1 ≤ size) :
    ∀ f (l : List α), l.length ≤ f → (chunkAux size f l).flatten = l := by
  intro f
  induction f with
  | zero =>
    intro l hf
    have : l = [] := List.length_eq_zero.mp (Nat.le_zero.mp hf)
    subst this
    rfl
  | succ f ih =>
    intro l hf
    cases l with
    | nil => rfl
    | cons x xs =>
      simp only [List.length_cons] at hf
      simp only [chunkAux, List.flatten_cons]
      rw [ih _ (by simp only [List.length_drop, List.length_cons]; omega),
        List.take_append_drop]

theorem chunkAux_length_le (size : Nat) :
    ∀ f (l : List α), ∀ g ∈ chunkAux size f l, g.length ≤ size := by
  intro f
  induction f with
  | zero => intro l g hg; simp [chunkAux] at hg
  | succ f ih =>
    intro l g hg
    cases l with
    | nil => simp [chunkAux] at hg
    | cons x xs =>
      simp only [chunkAux, List.mem_cons] at hg
      rcases hg with h | h
      · subst h
        simp
      · exact ih _ g h

theorem chunk_flatten (size : Nat) (hs : 1 ≤ size) (l : List α) :
    (chunk l size).flatten = l :=
  chunkAux_flatten size hs l.length l le_rfl

theorem chunk_length_le (size : Nat) (l : List α) :
    ∀ g ∈ chunk l size, g.length ≤ size :=
  chunkAux_length_le size l.length l

theorem take_min_length (l : List α) (a : Nat) : l.take (min a l.length) = l.take a := by
  rcases Nat.le_total a l.length with h | h
  · rw [Nat.min_eq_left h]
  · rw [Nat.min_eq_right h, List.take_length, List.take_of_length_le h]

theorem jsSlice_take_drop (l : List α) (i k : Nat) :
    jsSlice l (i : Int) ((i : Int) + (k : Int)) = (l.drop i).take k := by
  have hi0 : ¬((i : Int) < 0) := by omega
  have hik0 : ¬((i : Int) + (k : Int) < 0) := by omega
  simp only [jsSlice, hi0, hik0, if_false]
  have hs1 : (min (i : Int) (l.length : Int)).toNat = min i l.length := by omega
  have he1 : (min ((i : Int) + (k : Int)) (l.length : Int)).toNat = min (i + k) l.length := by
    omega
  rw [hs1, he1, take_min_length]
  rcases Nat.le_total i l.length with hi | hi
  · rw [Nat.min_eq_left hi, ← List.take_drop]
  · rw [Nat.min_eq_right hi, List.take_of_length_le (by omega),
      List.drop_length, List.drop_eq_nil_of_le hi, List.take_nil]

theorem chunkLoop_diverges (l : List α) (hl : l ≠ []) (size : Int) (hsz : size ≤ 0) :
    ∀ fuel (i : Int), i ≤ 0 → ∀ out, chunkLoop l size fuel i out = none := by
  intro fuel
  induction fuel with
  | zero => intro i _ out; rfl
  | succ fuel ih =>
    intro i hi out
    have hlen : 1 ≤ l.length := by
      cases l with
      | nil => exact absurd rfl hl
      | cons x xs => simp
    have hguard : i < (l.length : Int) := by omega
    simp only [chunkLoop, hguard, if_true]
    exact ih (i + size) (by omega) _

theorem chunkLoop_eq_chunk (size : Nat) (hs : 1 ≤ size) (l : List α) :
    ∀ fuel (i : Nat) out, l.length - i < fuel →
      chunkLoop l (size : Int) fuel (i : Int) out = some (out ++ chunk (l.drop i) size) := by
  intro fuel
  induction fuel with
  | zero => intro i out h; omega
  | succ fuel ih =>
    intro i out h
    by_cases hguard : (i : Int) < (l.length : Int)
    · have hi : i < l.length := by omega
      simp only [chunkLoop, hguard, if_true]
      have hcast : (i : Int) + (size : Int) = ((i + size : Nat) : Int) := by push_cast; ring
      rw [jsSlice_take_drop l i size, hcast,
        ih (i + size) (out ++ [(l.drop i).take size]) (by omega)]
      have hne : l.drop i ≠ [] := by
        intro hnil
        rw [List.drop_eq_nil_iff] at hnil
        omega
      rw [chunk_cons size hs _ hne]
      simp [List.drop_drop, Nat.add_comm]
    · simp only [chunkLoop, hguard, if_false]
      have : l.length ≤ i := by omega
      rw [List.drop_eq_nil_of_le this]
      have : chunk ([] : List α) size = [] := rfl
      rw [this, List.append_nil]

/-- C10. For chunk size at least 1 the source loop of `chunk` terminates
(within `items.length + 1` iterations) and produces consecutive groups of at
most `n` elements whose concatenation is the input; for `n ≤ 0` and a
non-empty input the loop never terminates, whatever the fuel. The engine
only calls `chunk` with group size 10 (`fetchRecordsByIds`). -/
theorem chunk_correct_and_loop_divergence (items : List α) (n : Int) :
    (1 ≤ n →
      chunkLoop items n (items.length + 1) 0 [] = some (chunk items n.toNat) ∧
      (chunk items n.toNat).flatten = items ∧
      ∀ g ∈ chunk items n.toNat, g.length ≤ n.toNat) ∧
    (n ≤ 0 → items ≠ [] → ∀ fuel, chunkLoop items n fuel 0 [] = none) := by
  constructor
  · intro hn
    have hs : 1 ≤ n.toNat := by omega
    have hcast : ((n.toNat : Nat) : Int) = n := by omega
    refine ⟨?_, chunk_flatten n.toNat hs items, chunk_length_le n.toNat items⟩
    have := chunkLoop_eq_chunk n.toNat hs items (items.length + 1) 0 [] (by omega)
    rw [hcast] at this
    simpa using this
  · intro hn hne fuel
    exact chunkLoop_diverges items hne n hn fuel 0 le_rfl []

/-- C10 witness: the properties hold concretely at chunk size 10 on a
three-element list, and the loop at size 0 on a non-empty list returns
`none` for concrete fuels. -/
theorem chunk_correct_witness :
    (chunkLoop [1, 2, 3] (10 : Int) 4 0 [] = some (chunk [1, 2, 3] 10) ∧
      (chunk [1, 2, 3] 10).flatten = [1, 2, 3] ∧
      ∀ g ∈ chunk [1, 2, 3] 10, g.length ≤ 10) ∧
    (∀ fuel, chunkLoop [1, 2, 3] (0 : Int) fuel 0 [] = none) :=
  ⟨(chunk_correct_and_loop_divergence [1, 2, 3] 10).1 (by decide),
    fun fuel =>
      (chunk_correct_and_loop_divergence [1, 2, 3] 0).2 (by decide) (by decide) fuel⟩

/-! ## C9: prefix enumeration -/

/-- C9. `prefixes(text, maxLen)` returns exactly the normalized text's
prefixes of length 1 .. min(maxLen, length of the normalized text),
inclusive, in increasing-length order: the i-th entry is the prefix of
length i+1, and the emitted lengths are `1, 2, ..., min maxLen |norm|`. -/
theorem prefixes_spec (v : String) (m : Nat) :
    ((prefixes v m).map (fun s => s.data.length) =
      List.range' 1 (min m (normalize v).data.length)) ∧
    ∀ i (h : i < (prefixes v m).length),
      (prefixes v m).get ⟨i, h⟩ = String.mk ((normalize v).data.take (i + 1)) := by
  constructor
  · simp only [prefixes, List.map_map]
    have hcongr : ∀ i ∈ List.range (min m (normalize v).data.length),
        ((fun s => s.data.length) ∘ fun i => String.mk ((normalize v).data.take (i + 1))) i
          = i + 1 := by
      intro i hi
      rw [List.mem_range] at hi
      simp only [Function.comp_apply]
      show ((normalize v).data.take (i + 1)).length = i + 1
      rw [List.length_take]
      omega
    rw [List.map_congr_left hcongr, List.range'_eq_map_range]
    exact (List.map_congr_left fun i _ => Nat.add_comm i 1).trans rfl
  · intro i h
    simp only [prefixes] at h ⊢
    simp

/-- C9 witness: concrete evaluation on the query text used by the demo. -/
theorem prefixes_spec_witness :
    ((prefixes "Ann" 20).map (fun s => s.data.length) =
      List.range' 1 (min 20 (normalize "Ann").data.length)) ∧
    (prefixes "Ann" 20).get ⟨1, by decide⟩ =
      String.mk ((normalize "Ann").data.take 2) :=
  ⟨(prefixes_spec "Ann" 20).1, (prefixes_spec "Ann" 20).2 1 (by decide)⟩

/-! ## Crypto layer (src/unnamed/part_003: crypto.ts) -/

/-- Hash algorithm selector: the two recognized `hmacHash` values. -/
inductive HashAlg where
  | sha256
  | sha512
deriving DecidableEq

/-- `KdfOptions` from crypto.ts. -/
structure KdfOptions where
  iterations : Nat
  hmacHash : HashAlg
deriving DecidableEq

/-- `DEFAULT_KDF` from crypto.ts. -/
def DEFAULT_KDF : KdfOptions := ⟨100000, HashAlg.sha256⟩

/-- `PQ_KDF` from crypto.ts. -/
def PQ_KDF : KdfOptions := ⟨300000, HashAlg.sha512⟩

/-- Model of a WebCrypto key handle as returned by `importKey`: the raw
key material plus the algorithm it was imported for (AES-GCM for the
record-encryption key, HMAC with its hash for the index key). -/
inductive CryptoKey where
  | aesGcm (bytes : List Nat)
  | hmacKey (hash : HashAlg) (bytes : List Nat)
deriving DecidableEq

/-- Model of the external `TextEncoder`: an injective byte encoding of the
string's code points (three bytes per code point, little-endian; the exact
UTF-8 byte layout is immaterial to every claim, only injectivity into
bytes and invertibility matter). -/
def charBytes (c : Char) : List Nat :=
  [c.toNat % 256, c.toNat / 256 % 256, c.toNat / 65536 % 256]

/-- Byte encoding of a whole string (model of `TextEncoder.encode`). -/
def textEncode (s : String) : List Nat := (s.data.map charBytes).flatten

/-- Inverse of `charBytes` over a byte list (model of `TextDecoder`),
failing on byte sequences that decode to no valid code point. -/
def textDecodeChars : List Nat → Option (List Char)
  | [] => some []
  | a :: b :: c :: rest =>
    let n := a + b * 256 + c * 65536
    if _h : n.isValidChar then
      match textDecodeChars rest with
      | some tail => some (Char.ofNat n :: tail)
      | none => none
    else none
  | _ => none

/-- Model of `TextDecoder.decode`. -/
def textDecode (l : List Nat) : Option String :=
  (textDecodeChars l).map fun cs => String.mk cs

theorem char_toNat_lt (c : Char) : c.toNat < 16777216 := by
  have h : c.val.toNat < 0xd800 ∨ (0xdfff < c.val.toNat ∧ c.val.toNat < 0x110000) := c.valid
  show c.val.toNat < _
  omega

theorem textEncode_bytes_lt (s : String) : ∀ b ∈ textEncode s, b < 256 := by
  intro b hb
  simp only [textEncode, List.mem_flatten, List.mem_map] at hb
  obtain ⟨l, ⟨c, _, hcl⟩, hbl⟩ := hb
  subst hcl
  simp only [charBytes, List.mem_cons, List.mem_singleton] at hbl
  rcases hbl with h | h | h | h <;> first
    | (subst h; omega)
    | simp at h

theorem textDecodeChars_encode : ∀ (l : List Char),
    textDecodeChars ((l.map charBytes).flatten) = some l := by
  intro l
  induction l with
  | nil => rfl
  | cons c cs ih =>
    have hlt := char_toNat_lt c
    simp only [List.map_cons, List.flatten_cons, charBytes, List.cons_append,
      List.nil_append, textDecodeChars]
    have hn : c.toNat % 256 + c.toNat / 256 % 256 * 256 + c.toNat / 65536 % 256 * 65536
        = c.toNat := by omega
    rw [hn]
    have hvalid : c.toNat.isValidChar := c.valid
    have hnil : ([] : List Nat).append ((cs.map charBytes).flatten)
        = (cs.map charBytes).flatten := rfl
    rw [dif_pos hvalid, hnil, ih, Char.ofNat_toNat]

theorem textDecode_encode (s : String) : textDecode (textEncode s) = some s := by
  rw [textDecode, textEncode, textDecodeChars_encode]
  rfl

/-! ### Base64 (crypto.ts bytesToBase64 and base64ToBytes, modelling the
manual btoa and atob code path on byte lists) -/

/-- The base64 alphabet in index order. -/
def b64Chars : List Char :=
  ['A', 'B', 'C', 'D', 'E', 'F', 'G', 'H', 'I', 'J', 'K', 'L', 'M',
   'N', 'O', 'P', 'Q', 'R', 'S', 'T', 'U', 'V', 'W', 'X', 'Y', 'Z',
   'a', 'b', 'c', 'd', 'e', 'f', 'g', 'h', 'i', 'j', 'k', 'l', 'm',
   'n', 'o', 'p', 'q', 'r', 's', 't', 'u', 'v', 'w', 'x', 'y', 'z',
   '0', '1', '2', '3', '4', '5', '6', '7', '8', '9', '+', '/']

/-- Digit character of a sextet value. -/
def b64Digit (v : Nat) : Char := b64Chars.getD v 'A'

/-- Index of a character in the base64 alphabet. -/
def b64ValAux (c : Char) : List Char → Nat → Option Nat
  | [], _ => none
  | d :: rest, i => if d = c then some i else b64ValAux c rest (i + 1)

/-- Sextet value of a base64 digit character, `none` for characters
outside the alphabet (atob rejects them). -/
def b64Val (c : Char) : Option Nat := b64ValAux c b64Chars 0

/-- Standard base64 encoding of a byte list with `=` padding (what the
manual `String.fromCharCode` + `btoa` branch of `bytesToBase64` emits). -/
def b64Encode : List Nat → List Char
  | a :: b :: c :: rest =>
    b64Digit (a / 4) :: b64Digit (a % 4 * 16 + b / 16) ::
      b64Digit (b % 16 * 4 + c / 64) :: b64Digit (c % 64) :: b64Encode rest
  | [a, b] =>
    [b64Digit (a / 4), b64Digit (a % 4 * 16 + b / 16), b64Digit (b % 16 * 4), '=']
  | [a] => [b64Digit (a / 4), b64Digit (a % 4 * 16), '=', '=']
  | [] => []

/-- Base64 decoding of a character list (model of the `atob` branch of
`base64ToBytes`): four characters at a time, honouring `=` padding at the
end, `none` on malformed input. -/
def b64Decode : List Char → Option (List Nat)
  | [] => some []
  | c1 :: c2 :: c3 :: c4 :: rest =>
    if c3 = '=' then
      if c4 = '=' ∧ rest = [] then
        match b64Val c1, b64Val c2 with
        | some v1, some v2 => some [v1 * 4 + v2 / 16]
        | _, _ => none
      else none
    else if c4 = '=' then
      if rest = [] then
        match b64Val c1, b64Val c2, b64Val c3 with
        | some v1, some v2, some v3 => some [v1 * 4 + v2 / 16, v2 % 16 * 16 + v3 / 4]
        | _, _, _ => none
      else none
    else
      match b64Val c1, b64Val c2, b64Val c3, b64Val c4, b64Decode rest with
      | some v1, some v2, some v3, some v4, some tail =>
        some ((v1 * 4 + v2 / 16) :: (v2 % 16 * 16 + v3 / 4) :: (v3 % 4 * 64 + v4) :: tail)
      | _, _, _, _, _ => none
  | _ => none

/-- `bytesToBase64` from crypto.ts. -/
def bytesToBase64 (bytes : List Nat) : String := String.mk (b64Encode bytes)

/-- `base64ToBytes` from crypto.ts (`none` models the decode exception). -/
def base64ToBytes (s : String) : Option (List Nat) := b64Decode s.data

theorem b64Val_digit : ∀ v, v < 64 → b64Val (b64Digit v) = some v := by decide

theorem b64Digit_ne_pad : ∀ v, v < 64 → b64Digit v ≠ '=' := by decide

theorem b64Decode_encode :
    ∀ (bytes : List Nat), (∀ b ∈ bytes, b < 256) → b64Decode (b64Encode bytes) = some bytes
  | [], _ => rfl
  | [a], h => by
    have ha : a < 256 := h a (by simp)
    have h1 : a / 4 < 64 := by omega
    have h2 : a % 4 * 16 < 64 := by omega
    show b64Decode (b64Digit (a / 4) :: b64Digit (a % 4 * 16) :: '=' :: '=' :: []) = some [a]
    rw [b64Decode, if_pos rfl, if_pos ⟨rfl, rfl⟩, b64Val_digit _ h1, b64Val_digit _ h2]
    simp
    all_goals omega
  | [a, b], h => by
    have ha : a < 256 := h a (by simp)
    have hb : b < 256 := h b (by simp)
    have h1 : a / 4 < 64 := by omega
    have h2 : a % 4 * 16 + b / 16 < 64 := by omega
    have h3 : b % 16 * 4 < 64 := by omega
    show b64Decode (b64Digit (a / 4) :: b64Digit (a % 4 * 16 + b / 16) ::
      b64Digit (b % 16 * 4) :: '=' :: []) = some [a, b]
    rw [b64Decode, if_neg (b64Digit_ne_pad _ h3), if_pos rfl, if_pos rfl,
      b64Val_digit _ h1, b64Val_digit _ h2, b64Val_digit _ h3]
    simp
    all_goals omega
  | a :: b :: c :: rest, h => by
    have ha : a < 256 := h a (by simp)
    have hb : b < 256 := h b (by simp)
    have hc : c < 256 := h c (by simp)
    have hrest : ∀ x ∈ rest, x < 256 := by
      intro x hx
      exact h x (by simp [List.mem_cons] at hx ⊢; tauto)
    have h1 : a / 4 < 64 := by omega
    have h2 : a % 4 * 16 + b / 16 < 64 := by omega
    have h3 : b % 16 * 4 + c / 64 < 64 := by omega
    have h4 : c % 64 < 64 := by omega
    show b64Decode (b64Digit (a / 4) :: b64Digit (a % 4 * 16 + b / 16) ::
      b64Digit (b % 16 * 4 + c / 64) :: b64Digit (c % 64) :: b64Encode rest)
      = some (a :: b :: c :: rest)
    rw [b64Decode, if_neg (b64Digit_ne_pad _ h3), if_neg (b64Digit_ne_pad _ h4),
      b64Val_digit _ h1, b64Val_digit _ h2, b64Val_digit _ h3, b64Val_digit _ h4,
      b64Decode_encode rest hrest]
    simp
    all_goals omega

theorem base64ToBytes_bytesToBase64 (bytes : List Nat) (h : ∀ b ∈ bytes, b < 256) :
    base64ToBytes (bytesToBase64 bytes) = some bytes :=
  b64Decode_encode bytes h

/-! ### WebCrypto interface model -/

/-- Model of the external WebCrypto `subtle` provider at its interface
boundary: PBKDF2 bit derivation, HMAC signing and AES-GCM, together with
the interface laws the platform guarantees and the code relies on
(`deriveBits` returns the requested number of bits as bytes; AES-GCM is
an authenticated cipher over byte arrays that decrypts what it
encrypted under the same key and nonce). -/
structure SubtleCrypto where
  pbkdf2 : List Nat → List Nat → Nat → HashAlg → Nat → List Nat
  hmacSign : HashAlg → List Nat → List Nat → List Nat
  aesGcmEnc : CryptoKey → List Nat → List Nat → List Nat
  aesGcmDec : CryptoKey → List Nat → List Nat → Option (List Nat)
  pbkdf2_length : ∀ pw salt iter h nbits, (pbkdf2 pw salt iter h nbits).length = nbits / 8
  aesGcmEnc_bytes : ∀ k iv pt, (∀ b ∈ pt, b < 256) → ∀ b ∈ aesGcmEnc k iv pt, b < 256
  aesGcm_roundtrip : ∀ k iv pt, (∀ b ∈ pt, b < 256) → aesGcmDec k iv (aesGcmEnc k iv pt) = some pt

/-- Demonstration instance of the WebCrypto interface model, showing its
laws are satisfiable (derivation returns zero bytes of the right length,
the cipher is the identity on byte lists). -/
def trivialSubtle : SubtleCrypto where
  pbkdf2 := fun _ _ _ _ nbits => List.replicate (nbits / 8) 0
  hmacSign := fun _ _ _ => []
  aesGcmEnc := fun _ _ pt => pt
  aesGcmDec := fun _ _ ct => some ct
  pbkdf2_length := fun _ _ _ _ _ => List.length_replicate _ _
  aesGcmEnc_bytes := fun _ _ _ h => h
  aesGcm_roundtrip := fun _ _ _ _ => rfl

/-- Model of `Uint8Array.prototype.slice(s, e)` on non-negative indices. -/
def uint8Slice (l : List Nat) (s e : Nat) : List Nat := (l.take e).drop s

/-- `deriveKeys` from crypto.ts: PBKDF2 over the UTF-8 passphrase and the
salt, with the option's iteration count, SHA-256 as the KDF-internal hash
and 512 requested bits; bytes [0,32) are imported as the AES-GCM record
key, bytes [32,64) as the HMAC index key under `options.hmacHash`. -/
def deriveKeys (subtle : SubtleCrypto) (passphrase : String) (salt : List Nat)
    (options : KdfOptions) : CryptoKey × CryptoKey :=
  let bytes := subtle.pbkdf2 (textEncode passphrase) salt options.iterations HashAlg.sha256 512
  let encKeyBytes := uint8Slice bytes 0 32
  let indexKeyBytes := uint8Slice bytes 32 64
  (CryptoKey.aesGcm encKeyBytes, CryptoKey.hmacKey options.hmacHash indexKeyBytes)

/-- C7. `deriveKeys` runs PBKDF2 over (passphrase, salt) with
`kdfParams.iterations` rounds and SHA-256 as the KDF-internal hash,
producing exactly 64 bytes; bytes [0,32) become the encryption key and
bytes [32,64) the HMAC index key material, whose hash algorithm comes
from `kdfParams.hmacHash` independently of the KDF's internal hash. -/
theorem deriveKeys_spec (subtle : SubtleCrypto) (passphrase : String) (salt : List Nat)
    (options : KdfOptions) :
    (subtle.pbkdf2 (textEncode passphrase) salt options.iterations HashAlg.sha256 512).length
        = 64 ∧
    deriveKeys subtle passphrase salt options =
      (CryptoKey.aesGcm
        ((subtle.pbkdf2 (textEncode passphrase) salt options.iterations
          HashAlg.sha256 512).take 32),
       CryptoKey.hmacKey options.hmacHash
        ((subtle.pbkdf2 (textEncode passphrase) salt options.iterations
          HashAlg.sha256 512).drop 32)) ∧
    ((subtle.pbkdf2 (textEncode passphrase) salt options.iterations
        HashAlg.sha256 512).take 32).length = 32 ∧
    ((subtle.pbkdf2 (textEncode passphrase) salt options.iterations
        HashAlg.sha256 512).drop 32).length = 32 ∧
    (subtle.pbkdf2 (textEncode passphrase) salt options.iterations HashAlg.sha256 512).take 32
        ++ (subtle.pbkdf2 (textEncode passphrase) salt options.iterations
          HashAlg.sha256 512).drop 32
      = subtle.pbkdf2 (textEncode passphrase) salt options.iterations HashAlg.sha256 512 := by
  have hlen : (subtle.pbkdf2 (textEncode passphrase) salt options.iterations
      HashAlg.sha256 512).length = 64 :=
    subtle.pbkdf2_length (textEncode passphrase) salt options.iterations HashAlg.sha256 512
  refine ⟨hlen, ?_, ?_, ?_, List.take_append_drop _ _⟩
  · simp only [deriveKeys, uint8Slice, List.drop_zero]
    have h64 : (subtle.pbkdf2 (textEncode passphrase) salt options.iterations
        HashAlg.sha256 512).take 64
        = subtle.pbkdf2 (textEncode passphrase) salt options.iterations HashAlg.sha256 512 :=
      List.take_of_length_le (by omega)
    rw [h64]
  · rw [List.length_take]
    omega
  · rw [List.length_drop]
    omega

/-- C7 witness: the byte-layout contract evaluated at the demonstration
provider instance with the PQ parameter set (HMAC hash SHA-512 while the
KDF-internal hash stays SHA-256). -/
theorem deriveKeys_spec_witness :
    (trivialSubtle.pbkdf2 (textEncode "demo-passphrase") [1, 2] PQ_KDF.iterations
        HashAlg.sha256 512).length = 64 ∧
    deriveKeys trivialSubtle "demo-passphrase" [1, 2] PQ_KDF =
      (CryptoKey.aesGcm
        ((trivialSubtle.pbkdf2 (textEncode "demo-passphrase") [1, 2] PQ_KDF.iterations
          HashAlg.sha256 512).take 32),
       CryptoKey.hmacKey PQ_KDF.hmacHash
        ((trivialSubtle.pbkdf2 (textEncode "demo-passphrase") [1, 2] PQ_KDF.iterations
          HashAlg.sha256 512).drop 32)) :=
  ⟨(deriveKeys_spec trivialSubtle "demo-passphrase" [1, 2] PQ_KDF).1,
   (deriveKeys_spec trivialSubtle "demo-passphrase" [1, 2] PQ_KDF).2.1⟩

/-! ### encryptJson / decryptJson (crypto.ts) -/

/-- Model of the external JSON layer for a payload type: `JSON.stringify`
and `JSON.parse`, with the round-trip law serialization guarantees for
JSON-serializable payloads. -/
structure JsonCodec (α : Type) where
  stringify : α → String
  parse : String → Option α
  parse_stringify : ∀ a, parse (stringify a) = some a

/-- Demonstration JSON codec instance (payloads carried verbatim). -/
def verbatimCodec : JsonCodec String where
  stringify := id
  parse := some
  parse_stringify := fun _ => rfl

/-- `encryptJson` from crypto.ts: stringify, UTF-8 encode, AES-GCM encrypt
under the fresh random nonce `ivBytes` (the randomness is passed in as an
argument of the model), and base64-encode ciphertext and iv. -/
def encryptJson (subtle : SubtleCrypto) (codec : JsonCodec α) (payload : α)
    (encKey : CryptoKey) (ivBytes : List Nat) : String × String :=
  let plaintext := textEncode (codec.stringify payload)
  let ciphertext := subtle.aesGcmEnc encKey ivBytes plaintext
  (bytesToBase64 ciphertext, bytesToBase64 ivBytes)

/-- `decryptJson` from crypto.ts: base64-decode ciphertext and iv, AES-GCM
decrypt, UTF-8 decode, JSON parse; `none` models the thrown exceptions of
any failing stage. -/
def decryptJson (subtle : SubtleCrypto) (codec : JsonCodec α) (ct iv : String)
    (encKey : CryptoKey) : Option α :=
  match base64ToBytes ct with
  | none => none
  | some ciphertext =>
    match base64ToBytes iv with
    | none => none
    | some ivB =>
      match subtle.aesGcmDec encKey ivB ciphertext with
      | none => none
      | some plaintext =>
        match textDecode plaintext with
        | none => none
        | some s => codec.parse s

/-- C8. Encrypt-then-decrypt round-trips losslessly: for every
JSON-serializable payload, every key and every byte-valued nonce,
decrypting the (ciphertext, iv) pair produced by `encryptJson` with the
same key returns the payload. -/
theorem encryptJson_decryptJson_roundtrip (subtle : SubtleCrypto) (codec : JsonCodec α)
    (payload : α) (encKey : CryptoKey) (ivBytes : List Nat)
    (hiv : ∀ b ∈ ivBytes, b < 256) :
    decryptJson subtle codec (encryptJson subtle codec payload encKey ivBytes).1
      (encryptJson subtle codec payload encKey ivBytes).2 encKey = some payload := by
  have hpt : ∀ b ∈ textEncode (codec.stringify payload), b < 256 :=
    textEncode_bytes_lt (codec.stringify payload)
  have hct : ∀ b ∈ subtle.aesGcmEnc encKey ivBytes (textEncode (codec.stringify payload)),
      b < 256 :=
    subtle.aesGcmEnc_bytes encKey ivBytes _ hpt
  simp only [encryptJson, decryptJson, base64ToBytes_bytesToBase64 _ hct,
    base64ToBytes_bytesToBase64 _ hiv, subtle.aesGcm_roundtrip encKey ivBytes _ hpt,
    textDecode_encode, codec.parse_stringify]

/-- C8 witness: the round-trip evaluated at the demonstration provider and
codec, a concrete payload, key and 12-byte nonce. -/
theorem encryptJson_decryptJson_roundtrip_witness :
    (∀ b ∈ [0, 1, 2, 3, 4, 5, 6, 7, 8, 9, 250, 255], b < 256) ∧
    decryptJson trivialSubtle verbatimCodec
      (encryptJson trivialSubtle verbatimCodec "ann" (CryptoKey.aesGcm [7])
        [0, 1, 2, 3, 4, 5, 6, 7, 8, 9, 250, 255]).1
      (encryptJson trivialSubtle verbatimCodec "ann" (CryptoKey.aesGcm [7])
        [0, 1, 2, 3, 4, 5, 6, 7, 8, 9, 250, 255]).2
      (CryptoKey.aesGcm [7]) = some "ann" :=
  ⟨by decide,
   encryptJson_decryptJson_roundtrip trivialSubtle verbatimCodec "ann"
     (CryptoKey.aesGcm [7]) [0, 1, 2, 3, 4, 5, 6, 7, 8, 9, 250, 255] (by decide)⟩

/-! ## Benchmark engine (src/lib/types.ts, src/lib/cache.ts, src/lib/benchmark.ts) -/

/-- `Mode` from src/lib/types.ts. -/
inductive Mode where
  | blindIndex
  | decryptScan
  | clientCache
  | plaintextIndex
deriving DecidableEq, Inhabited

/-- Decrypted payload of a record as stored (fields other than `id`). -/
structure PersonData where
  name : String
  email : String
  city : String
  company : String
deriving DecidableEq, Inhabited

/-- `PersonRecord` from src/lib/types.ts. -/
structure PersonRecord where
  id : String
  name : String
  email : String
  city : String
  company : String
deriving DecidableEq, Inhabited

/-- An encrypted record document as fetched from the store:
`{id, ct, iv}`. -/
structure EncDoc where
  id : String
  ct : String
  iv : String
deriving DecidableEq, Inhabited

/-- `BenchmarkBreakdown` from src/lib/types.ts. -/
structure BenchmarkBreakdown where
  indexMs : Nat
  fetchMs : Nat
  decryptMs : Nat
  scanMs : Nat
  cacheBuildMs : Option Nat
deriving DecidableEq, Inhabited

/-- `BenchmarkResult` from src/lib/types.ts. -/
structure BenchmarkResult where
  mode : Mode
  totalMs : Nat
  breakdown : BenchmarkBreakdown
  resultCount : Nat
  sampleNote : Option String
  hits : List PersonRecord
deriving DecidableEq, Inhabited

/-- `CachedDataset` from src/lib/types.ts. -/
structure CachedDataset where
  datasetId : String
  records : List PersonRecord
  builtAt : Nat
  recordCount : Nat
  cap : Nat
  buildMs : Option Nat
deriving DecidableEq, Inhabited

/-- Model of the Firestore collections of one dataset: the encrypted
record documents in the store's native `documentId()` ordering, and the
blind / plaintext index buckets (an absent bucket is the empty list). -/
structure Store where
  records : List EncDoc
  index : String → List String
  pindex : String → List String

/-- Model of the IndexedDB cache store of src/lib/cache.ts, keyed by
dataset id; `none` is the valid no-cache-yet signal. -/
abbrev CacheStore := String → Option CachedDataset

/-- Per-run environment of the engine: the behaviour of the awaited
external calls under this run's derived keys (`token` stands for
`computeToken(·, indexKey)`, `dec` for a successful
`decryptJson(ct, iv, encKey)`), and the duration every awaited operation
or timed pure phase contributes to the monotonic clock. -/
structure Env where
  token : String → String
  dec : String → String → PersonData
  tokenMs : Nat
  indexGetMs : Nat
  pindexGetMs : Nat
  chunkGetMs : List String → Nat
  pageGetMs : Option String → Nat
  cachePageMs : Nat → Nat
  decMs : EncDoc → Nat
  scanWorkMs : Nat → Nat
  cacheGetMs : Nat
  cachePutMs : Nat
  kdfMs : Nat

/-- `CACHE_CAP` from src/lib/benchmark.ts. -/
def CACHE_CAP : Nat := 10000

/-- `MAX_HITS` from src/lib/benchmark.ts. -/
def MAX_HITS : Nat := 20

/-- `FULL_SCAN_PAGE_SIZE` from src/lib/benchmark.ts. -/
def FULL_SCAN_PAGE_SIZE : Nat := 1000

/-- `MAX_RESULT_FETCH` from src/lib/benchmark.ts. -/
def MAX_RESULT_FETCH : Nat := 50

/-- `DATASET_SIZES` lookup with its `?? 1_000` fallback
(`getDatasetSize` in src/lib/benchmark.ts). -/
def getDatasetSize (datasetId : String) : Nat :=
  if datasetId = "people-1k" then 1000
  else if datasetId = "people-10k" then 10000
  else if datasetId = "people-100k" then 100000
  else 1000

/-- `encodePrefixDocId` from crypto.ts (the identity). -/
def encodePrefixDocId (prefixValue : String) : String := prefixValue

/-- The match predicate shared by `scanRecords` (benchmark.ts) and
`searchCache` (cache.ts): normalized name or email starts with the
normalized query. -/
def matchesQuery (normalizedQuery : String) (record : PersonRecord) : Bool :=
  jsStartsWith (normalize record.name) normalizedQuery ||
    jsStartsWith (normalize record.email) normalizedQuery

/-- `searchCache` from src/lib/cache.ts. -/
def searchCache (records : List PersonRecord) (normalizedQuery : String) : List PersonRecord :=
  records.filter (matchesQuery normalizedQuery)

/-- Documents returned by `fetchRecordsByIds`: the ids are grouped in
chunks of 10 and each chunk is answered by a `documentId() in group`
query, which returns the matching documents in the store's native
order. -/
def docsByIds (store : Store) (recordIds : List String) : List EncDoc :=
  ((chunk recordIds 10).map
    (fun group => store.records.filter (fun rec => group.contains rec.id))).flatten

/-- Duration of `fetchRecordsByIds`: one awaited batched read per chunk. -/
def fetchByIdsMs (env : Env) (recordIds : List String) : Nat :=
  ((chunk recordIds 10).map env.chunkGetMs).sum

/-- Records produced by `decryptRecords`: each document's payload with the
document id spliced in (`{...payload, id: doc.id}`). -/
def decMap (env : Env) (docs : List EncDoc) : List PersonRecord :=
  docs.map fun d =>
    let p := env.dec d.ct d.iv
    ⟨d.id, p.name, p.email, p.city, p.company⟩

/-- Duration of `decryptRecords`: one awaited `decryptJson` per document. -/
def decMapMs (env : Env) (docs : List EncDoc) : Nat :=
  (docs.map env.decMs).sum

/-- One page of the paginated full scan: the store's records after the
cursor (exclusive), in native id order, limited to the page size. The
store's `documentId()` ordering is modelled as lexicographic order on the
id's code points. -/
def pageAfter (store : Store) (cursor : Option String) (pageSize : Nat) : List EncDoc :=
  (match cursor with
   | none => store.records
   | some lastId => store.records.filter fun r => decide (lastId.data < r.id.data)).take
    pageSize

/-- Loop body of `fetchAllRecords` (benchmark.ts): accumulate pages,
advance the cursor to the last id of each full page, stop at the first
short page. The boolean records whether the loop exited by itself within
the given fuel (`runBenchmark` supplies fuel `store.records.length + 1`,
which always suffices for a strictly id-sorted store). -/
def fetchAllGo (env : Env) (store : Store) (pageSize : Nat) :
    Nat → Option String → List EncDoc → Nat → (List EncDoc × Nat × Bool)
  | 0, _, acc, dur => (acc, dur, false)
  | fuel + 1, cursor, acc, dur =>
    let page := pageAfter store cursor pageSize
    let dur2 := dur + env.pageGetMs cursor
    let acc2 := acc ++ page
    if page.length < pageSize then (acc2, dur2, true)
    else
      match page.getLast? with
      | none => (acc2, dur2, true)
      | some lastDoc => fetchAllGo env store pageSize fuel (some lastDoc.id) acc2 dur2

/-- `fetchAllRecords` from benchmark.ts: documents, fetch duration, and
whether the pagination loop finished. -/
def fetchAllRecords (env : Env) (store : Store) (pageSize : Nat) : List EncDoc × Nat × Bool :=
  fetchAllGo env store pageSize (store.records.length + 1) none [] 0

/-- Sample note of the capped index modes (`toLocaleString` rendered as
plain digits). -/
def fetchNote (cap total : Nat) : String :=
  "Fetched first " ++ toString cap ++ " of " ++ toString total ++
    " matches due to synthetic data repetition."

/-- Sample note of a capped cold cache build. -/
def capNote : String :=
  "Cache capped at " ++ toString CACHE_CAP ++ " records."

/-- Sample note of a warm cache smaller than the dataset. -/
def partialCacheNote (n : Nat) : String :=
  "Cache has " ++ toString n ++ " records from a larger dataset."

/-- Blind-index branch of `runBenchmark`: token, one bucket point read,
cap to the first `MAX_RESULT_FETCH` ids, batched fetch, decrypt;
`totalMs = indexMs + fetchMs + decryptMs`, no scan phase. -/
def runBlindIndex (env : Env) (store : Store) (nq : String) (c : CacheStore) (t : Nat) :
    BenchmarkResult × CacheStore × Nat :=
  let token := env.token nq
  let indexMs := env.tokenMs + env.indexGetMs
  let recordIds := store.index token
  let totalCount := recordIds.length
  let cappedIds :=
    if totalCount > MAX_RESULT_FETCH then recordIds.take MAX_RESULT_FETCH else recordIds
  let sampleNote :=
    if totalCount > MAX_RESULT_FETCH then some (fetchNote MAX_RESULT_FETCH totalCount)
    else none
  let docs := docsByIds store cappedIds
  let fetchMs := fetchByIdsMs env cappedIds
  let records := decMap env docs
  let decryptMs := decMapMs env docs
  ({ mode := Mode.blindIndex
     totalMs := indexMs + fetchMs + decryptMs
     breakdown :=
      { indexMs := indexMs, fetchMs := fetchMs, decryptMs := decryptMs, scanMs := 0,
        cacheBuildMs := none }
     resultCount := totalCount
     sampleNote := sampleNote
     hits := records.take MAX_HITS },
   c, t + indexMs + fetchMs + decryptMs)

/-- Plaintext-index branch of `runBenchmark`: identical shape to the
blind-index branch, but the bucket key is the normalized prefix itself. -/
def runPlaintextIndex (env : Env) (store : Store) (nq : String) (c : CacheStore) (t : Nat) :
    BenchmarkResult × CacheStore × Nat :=
  let docId := encodePrefixDocId nq
  let indexMs := env.pindexGetMs
  let recordIds := store.pindex docId
  let totalCount := recordIds.length
  let cappedIds :=
    if totalCount > MAX_RESULT_FETCH then recordIds.take MAX_RESULT_FETCH else recordIds
  let sampleNote :=
    if totalCount > MAX_RESULT_FETCH then some (fetchNote MAX_RESULT_FETCH totalCount)
    else none
  let docs := docsByIds store cappedIds
  let fetchMs := fetchByIdsMs env cappedIds
  let records := decMap env docs
  let decryptMs := decMapMs env docs
  ({ mode := Mode.plaintextIndex
     totalMs := indexMs + fetchMs + decryptMs
     breakdown :=
      { indexMs := indexMs, fetchMs := fetchMs, decryptMs := decryptMs, scanMs := 0,
        cacheBuildMs := none }
     resultCount := totalCount
     sampleNote := sampleNote
     hits := records.take MAX_HITS },
   c, t + indexMs + fetchMs + decryptMs)

/-- Decrypt-and-scan branch of `runBenchmark`: paginated full fetch,
decrypt everything, local filter; `totalMs = fetchMs + decryptMs + scanMs`,
no index phase and no sampling. -/
def runDecryptScan (env : Env) (store : Store) (nq : String) (c : CacheStore) (t : Nat) :
    BenchmarkResult × CacheStore × Nat :=
  let fa := fetchAllRecords env store FULL_SCAN_PAGE_SIZE
  let docs := fa.1
  let fetchMs := fa.2.1
  let records := decMap env docs
  let decryptMs := decMapMs env docs
  let found := records.filter (matchesQuery nq)
  let scanMs := env.scanWorkMs records.length
  ({ mode := Mode.decryptScan
     totalMs := fetchMs + decryptMs + scanMs
     breakdown :=
      { indexMs := 0, fetchMs := fetchMs, decryptMs := decryptMs, scanMs := scanMs,
        cacheBuildMs := none }
     resultCount := found.length
     sampleNote := none
     hits := found.take MAX_HITS },
   c, t + fetchMs + decryptMs + scanMs)

/-- Client-cache branch of `runBenchmark`. Cold (no cached snapshot):
fetch one page of `min(datasetSize, CACHE_CAP)` records, decrypt, persist
the snapshot, and report `cacheBuildMs = fetchMs + decryptMs` with
`totalMs = cacheBuildMs + scanMs`. Warm: reuse the snapshot, report the
cache-read time as `fetchMs` (the source reassigns `fetchMs = cacheReadMs`
when a snapshot exists) and `totalMs = cacheReadMs + scanMs`. -/
def runClientCache (env : Env) (store : Store) (datasetId : String) (nq : String)
    (c : CacheStore) (t : Nat) : BenchmarkResult × CacheStore × Nat :=
  let datasetSize := getDatasetSize datasetId
  let cacheReadMs := env.cacheGetMs
  match c datasetId with
  | none =>
    let pageSize := min datasetSize CACHE_CAP
    let docs := store.records.take pageSize
    let fetchMs := env.cachePageMs pageSize
    let records := decMap env docs
    let decryptMs := decMapMs env docs
    let cacheBuildMs := fetchMs + decryptMs
    let cached : CachedDataset :=
      { datasetId := datasetId, records := records,
        builtAt := t + cacheReadMs + cacheBuildMs, recordCount := records.length,
        cap := CACHE_CAP, buildMs := some cacheBuildMs }
    let c2 : CacheStore := fun k => if k = datasetId then some cached else c k
    let sampleNote := if datasetSize > CACHE_CAP then some capNote else none
    let found := searchCache records nq
    let scanMs := env.scanWorkMs records.length
    ({ mode := Mode.clientCache
       totalMs := cacheBuildMs + scanMs
       breakdown :=
        { indexMs := 0, fetchMs := fetchMs, decryptMs := decryptMs, scanMs := scanMs,
          cacheBuildMs := some cacheBuildMs }
       resultCount := found.length
       sampleNote := sampleNote
       hits := found.take MAX_HITS },
     c2, t + cacheReadMs + cacheBuildMs + env.cachePutMs + scanMs)
  | some cached =>
    let records := cached.records
    let sampleNote :=
      if datasetSize > cached.recordCount then some (partialCacheNote cached.recordCount)
      else none
    let found := searchCache records nq
    let scanMs := env.scanWorkMs records.length
    ({ mode := Mode.clientCache
       totalMs := cacheReadMs + scanMs
       breakdown :=
        { indexMs := 0, fetchMs := cacheReadMs, decryptMs := 0, scanMs := scanMs,
          cacheBuildMs := cached.buildMs }
       resultCount := found.length
       sampleNote := sampleNote
       hits := found.take MAX_HITS },
     c, t + cacheReadMs + scanMs)

/-- Dispatch on the mode, as the `if (mode === ...)` chain of the source. -/
def runMode (env : Env) (store : Store) (datasetId : String) (nq : String) (mode : Mode)
    (c : CacheStore) (t : Nat) : BenchmarkResult × CacheStore × Nat :=
  match mode with
  | Mode.blindIndex => runBlindIndex env store nq c t
  | Mode.plaintextIndex => runPlaintextIndex env store nq c t
  | Mode.decryptScan => runDecryptScan env store nq c t
  | Mode.clientCache => runClientCache env store datasetId nq c t

/-- The `for (const mode of modes)` loop: one result per requested mode,
in the order the caller listed them, threading cache state and clock. -/
def runModes (env : Env) (store : Store) (datasetId : String) (nq : String) :
    List Mode → CacheStore → Nat → (List BenchmarkResult × CacheStore × Nat)
  | [], c, t => ([], c, t)
  | m :: ms, c, t =>
    let step := runMode env store datasetId nq m c t
    let rest := runModes env store datasetId nq ms step.2.1 step.2.2
    (step.1 :: rest.1, rest.2)

/-- Options record of `runBenchmark`. -/
structure RunOptions where
  datasetId : String
  query : String
  modes : List Mode
  passphrase : String
  pqMode : Bool

/-- `runBenchmark` from src/lib/benchmark.ts: normalize the query and
short-circuit to no results when it is empty, otherwise derive the run's
keys (an awaited call of duration `kdfMs`; the derived keys are reflected
by `env.token` and `env.dec`) and execute the requested modes in order.
Returns the results, the final cache-store state and the final clock. -/
def runBenchmark (env : Env) (store : Store) (cache : CacheStore) (opts : RunOptions)
    (t0 : Nat) : List BenchmarkResult × CacheStore × Nat :=
  let normalizedQuery := normalize opts.query
  if normalizedQuery = "" then ([], cache, t0)
  else runModes env store opts.datasetId normalizedQuery opts.modes cache (t0 + env.kdfMs)

/-- `MODE_ORDER` from src/app/page.tsx: the canonical display order. -/
def MODE_ORDER : List Mode :=
  [Mode.blindIndex, Mode.decryptScan, Mode.clientCache, Mode.plaintextIndex]

/-- `resultsByMode` from src/app/page.tsx: index the run's results by mode
(later entries win, as in `new Map`), then project along `MODE_ORDER`,
dropping absent modes. -/
def resultsByMode (results : List BenchmarkResult) : List BenchmarkResult :=
  MODE_ORDER.filterMap fun m => results.reverse.find? fun r => decide (r.mode = m)

/-! ### Concrete fixtures used by the witnesses and counterexamples -/

/-- Concrete per-run environment: fixed token, decrypted name taken from
the ciphertext field, small distinct durations. -/
def env0 : Env where
  token := fun _ => "tok"
  dec := fun ct _ => ⟨ct, "e@x", "c", "co"⟩
  tokenMs := 1
  indexGetMs := 2
  pindexGetMs := 3
  chunkGetMs := fun _ => 4
  pageGetMs := fun _ => 5
  cachePageMs := fun _ => 6
  decMs := fun _ => 7
  scanWorkMs := fun _ => 8
  cacheGetMs := 5
  cachePutMs := 9
  kdfMs := 10

/-- Concrete two-record store; the blind-index bucket of the fixed token
and the plaintext bucket of the normalized demo query both hold one id. -/
def store0 : Store where
  records := [⟨"r1", "ann", "iv1"⟩, ⟨"r2", "bob", "iv2"⟩]
  index := fun tok => if tok = "tok" then ["r1"] else []
  pindex := fun p => if p = "an" then ["r1"] else []

/-- The empty cache store. -/
def emptyCache : CacheStore := fun _ => none

/-! ### Structural lemmas about the engine -/

theorem runMode_mode (env : Env) (store : Store) (datasetId nq : String) (m : Mode)
    (c : CacheStore) (t : Nat) : (runMode env store datasetId nq m c t).1.mode = m := by
  cases m with
  | blindIndex => rfl
  | plaintextIndex => rfl
  | decryptScan => rfl
  | clientCache =>
    simp only [runMode, runClientCache]
    cases c datasetId <;> rfl

theorem mem_runModes (env : Env) (store : Store) (datasetId nq : String) :
    ∀ (ms : List Mode) (c : CacheStore) (t : Nat) r,
      r ∈ (runModes env store datasetId nq ms c t).1 →
      ∃ m c2 t2, m ∈ ms ∧ r = (runMode env store datasetId nq m c2 t2).1 := by
  intro ms
  induction ms with
  | nil => intro c t r hr; simp [runModes] at hr
  | cons m ms ih =>
    intro c t r hr
    simp only [runModes, List.mem_cons] at hr
    rcases hr with h | h
    · exact ⟨m, c, t, by simp, h⟩
    · obtain ⟨m2, c2, t2, hm, he⟩ := ih _ _ r h
      exact ⟨m2, c2, t2, by simp [hm], he⟩

/-! ### C6: empty normalized query -/

theorem runBenchmark_empty (env : Env) (store : Store) (cache : CacheStore)
    (opts : RunOptions) (t0 : Nat) (h : normalize opts.query = "") :
    runBenchmark env store cache opts t0 = ([], cache, t0) := by
  simp [runBenchmark, h]

/-- C6. A query that normalizes to the empty string short-circuits: the
call returns successfully with no results for any requested mode, and
leaves the cache store and the clock untouched. -/
theorem empty_query_short_circuit (env : Env) (store : Store) (cache : CacheStore)
    (opts : RunOptions) (t0 : Nat) (h : normalize opts.query = "") :
    runBenchmark env store cache opts t0 = ([], cache, t0) :=
  runBenchmark_empty env store cache opts t0 h

/-- C6 witness: a whitespace-only query against the demo fixtures. -/
theorem empty_query_short_circuit_witness :
    normalize "   " = "" ∧
    runBenchmark env0 store0 emptyCache
      ⟨"people-1k", "   ", [Mode.blindIndex, Mode.decryptScan], "demo-passphrase", false⟩ 0
      = ([], emptyCache, 0) :=
  ⟨by decide,
   empty_query_short_circuit env0 store0 emptyCache
     ⟨"people-1k", "   ", [Mode.blindIndex, Mode.decryptScan], "demo-passphrase", false⟩ 0
     (by decide)⟩

/-! ### C1: totalMs is the sum of the phases the mode exercised -/

/-- Phase-sum contract of one result: for the index modes the total is
index + fetch + decrypt with a zero scan phase; for decrypt-and-scan it is
fetch + decrypt + scan with a zero index phase; for client cache the
index phase is zero and either a cold build was reported
(`cacheBuildMs = fetchMs + decryptMs`, total = build + scan) or the warm
path was taken (no decrypt phase, total = reported fetch + scan). -/
def phaseSumOk (r : BenchmarkResult) : Prop :=
  (r.mode = Mode.blindIndex ∨ r.mode = Mode.plaintextIndex →
    r.totalMs = r.breakdown.indexMs + r.breakdown.fetchMs + r.breakdown.decryptMs ∧
    r.breakdown.scanMs = 0) ∧
  (r.mode = Mode.decryptScan →
    r.totalMs = r.breakdown.fetchMs + r.breakdown.decryptMs + r.breakdown.scanMs ∧
    r.breakdown.indexMs = 0) ∧
  (r.mode = Mode.clientCache →
    r.breakdown.indexMs = 0 ∧
    ((∃ b, r.breakdown.cacheBuildMs = some b ∧
        b = r.breakdown.fetchMs + r.breakdown.decryptMs ∧
        r.totalMs = b + r.breakdown.scanMs) ∨
      (r.breakdown.decryptMs = 0 ∧
        r.totalMs = r.breakdown.fetchMs + r.breakdown.scanMs)))

theorem runMode_phaseSumOk (env : Env) (store : Store) (datasetId nq : String) (m : Mode)
    (c : CacheStore) (t : Nat) : phaseSumOk (runMode env store datasetId nq m c t).1 := by
  have hm := runMode_mode env store datasetId nq m c t
  cases m with
  | blindIndex =>
    exact ⟨fun _ => ⟨rfl, rfl⟩, fun h => absurd (hm.symm.trans h) (by decide),
      fun h => absurd (hm.symm.trans h) (by decide)⟩
  | plaintextIndex =>
    exact ⟨fun _ => ⟨rfl, rfl⟩, fun h => absurd (hm.symm.trans h) (by decide),
      fun h => absurd (hm.symm.trans h) (by decide)⟩
  | decryptScan =>
    refine ⟨fun h => ?_, fun _ => ⟨rfl, rfl⟩, fun h => absurd (hm.symm.trans h) (by decide)⟩
    rcases h with h | h <;> exact absurd (hm.symm.trans h) (by decide)
  | clientCache =>
    refine ⟨fun h => ?_, fun h => absurd (hm.symm.trans h) (by decide), fun _ => ?_⟩
    · rcases h with h | h <;> exact absurd (hm.symm.trans h) (by decide)
    · cases hc : c datasetId with
      | none =>
        simp [runMode, runClientCache, hc]
      | some cached =>
        simp [runMode, runClientCache, hc]

/-- C1. Every result a benchmark run reports satisfies the phase-sum
contract: `totalMs` is exactly the sum of the breakdown fields of the
phases that mode exercised on that run, and phases the mode does not
exercise are present in the breakdown as 0 (scan for the index modes,
index for the scan and cache modes). -/
theorem benchmark_phase_sum (env : Env) (store : Store) (cache : CacheStore)
    (opts : RunOptions) (t0 : Nat) (r : BenchmarkResult)
    (hr : r ∈ (runBenchmark env store cache opts t0).1) : phaseSumOk r := by
  by_cases hq : normalize opts.query = ""
  · rw [runBenchmark_empty env store cache opts t0 hq] at hr
    simp at hr
  · simp only [runBenchmark, if_neg hq] at hr
    obtain ⟨m, c2, t2, _, he⟩ := mem_runModes env store _ _ opts.modes cache _ r hr
    subst he
    exact runMode_phaseSumOk env store _ _ m c2 t2

/-- C1 witness: the contract evaluated on the first result of a concrete
run that requests a blind-index lookup and a cold client-cache pass. -/
theorem benchmark_phase_sum_witness :
    phaseSumOk
      (((runBenchmark env0 store0 emptyCache
        ⟨"people-1k", "An", [Mode.clientCache, Mode.blindIndex], "demo-passphrase", false⟩
        0).1).getD 0 default) :=
  benchmark_phase_sum env0 store0 emptyCache
    ⟨"people-1k", "An", [Mode.clientCache, Mode.blindIndex], "demo-passphrase", false⟩
    0 _ (by decide)

/-! ### C2: result ordering -/

theorem runModes_map_mode (env : Env) (store : Store) (datasetId nq : String) :
    ∀ (ms : List Mode) (c : CacheStore) (t : Nat),
      (runModes env store datasetId nq ms c t).1.map (fun r => r.mode) = ms := by
  intro ms
  induction ms with
  | nil => intro c t; rfl
  | cons m ms ih =>
    intro c t
    simp only [runModes, List.map_cons]
    rw [runMode_mode, ih]

theorem resultsByMode_mode_sublist (rs : List BenchmarkResult) :
    ((resultsByMode rs).map (fun r => r.mode)).Sublist MODE_ORDER := by
  have hgen : ∀ (ms : List Mode),
      ((ms.filterMap fun m => rs.reverse.find? fun r => decide (r.mode = m)).map
        (fun r => r.mode)).Sublist ms := by
    intro ms
    induction ms with
    | nil => simp
    | cons m ms ih =>
      simp only [List.filterMap_cons]
      cases hfind : rs.reverse.find? (fun r => decide (r.mode = m)) with
      | none => exact ih.cons m
      | some r =>
        have hp := List.find?_some hfind
        have hmode : r.mode = m := by simpa using hp
        simp only [List.map_cons, hmode]
        exact ih.cons₂ m
  exact hgen MODE_ORDER

/-- C2 (amended). `runBenchmark` returns one result per requested mode in
the order the caller listed the modes (not in a canonical order); the
fixed canonical ordering, independent of selection order, is applied by
the presentation layer's `resultsByMode` projection, whose mode sequence
is always a subsequence of `MODE_ORDER`. -/
theorem benchmark_order_follows_selection (env : Env) (store : Store) (cache : CacheStore)
    (opts : RunOptions) (t0 : Nat) (hq : normalize opts.query ≠ "") :
    ((runBenchmark env store cache opts t0).1.map (fun r => r.mode) = opts.modes) ∧
    ∀ rs : List BenchmarkResult,
      ((resultsByMode rs).map (fun r => r.mode)).Sublist MODE_ORDER := by
  refine ⟨?_, resultsByMode_mode_sublist⟩
  simp only [runBenchmark, if_neg hq]
  exact runModes_map_mode env store _ _ opts.modes cache _

/-- C2 witness: a concrete run whose selection order is honoured. -/
theorem benchmark_order_follows_selection_witness :
    ((runBenchmark env0 store0 emptyCache
        ⟨"people-1k", "An", [Mode.blindIndex, Mode.decryptScan], "demo-passphrase", false⟩
        0).1.map (fun r => r.mode) = [Mode.blindIndex, Mode.decryptScan]) ∧
    ∀ rs : List BenchmarkResult,
      ((resultsByMode rs).map (fun r => r.mode)).Sublist MODE_ORDER :=
  benchmark_order_follows_selection env0 store0 emptyCache
    ⟨"people-1k", "An", [Mode.blindIndex, Mode.decryptScan], "demo-passphrase", false⟩
    0 (by decide)

/-- C2 counterexample: when the caller lists the modes against the
canonical order, the returned sequence follows the caller's order, not
the canonical `MODE_ORDER` projection the claim asserts. -/
theorem benchmark_order_counterexample :
    ((runBenchmark env0 store0 emptyCache
        ⟨"people-1k", "An", [Mode.decryptScan, Mode.blindIndex], "demo-passphrase", false⟩
        0).1.map (fun r => r.mode) = [Mode.decryptScan, Mode.blindIndex]) ∧
    ((runBenchmark env0 store0 emptyCache
        ⟨"people-1k", "An", [Mode.decryptScan, Mode.blindIndex], "demo-passphrase", false⟩
        0).1.map (fun r => r.mode)
      ≠ MODE_ORDER.filter (fun m => m ∈ [Mode.decryptScan, Mode.blindIndex])) := by
  decide

/-! ### C3: capping and sampling policy -/

theorem fetchNote_ne_empty (cap total : Nat) : fetchNote cap total ≠ "" := by
  intro h
  have hlen := congrArg String.length h
  simp only [fetchNote, String.length_append] at hlen
  have h1 : "Fetched first ".length = 14 := by decide
  have h0 : "".length = 0 := by decide
  omega

/-- Fields of a capped index-mode result: the true bucket size is still
reported, the hits are capped to `MAX_HITS`, a non-empty sample note is
present, and hits, fetch and decrypt work reflect only the first
`MAX_RESULT_FETCH` ids of the bucket. -/
def cappedFields (env : Env) (store : Store) (bucket : List String)
    (r : BenchmarkResult) : Prop :=
  r.resultCount = bucket.length ∧
  r.hits.length ≤ MAX_HITS ∧
  (∃ s, r.sampleNote = some s ∧ s ≠ "") ∧
  r.hits = (decMap env (docsByIds store (bucket.take MAX_RESULT_FETCH))).take MAX_HITS ∧
  r.breakdown.fetchMs = fetchByIdsMs env (bucket.take MAX_RESULT_FETCH) ∧
  r.breakdown.decryptMs = decMapMs env (docsByIds store (bucket.take MAX_RESULT_FETCH))

/-- Capping contract of one result: whichever index mode produced it, if
its bucket overflows the fetch threshold the capped fields hold. -/
def cappingOk (env : Env) (store : Store) (nq : String) (r : BenchmarkResult) : Prop :=
  (r.mode = Mode.blindIndex →
    MAX_RESULT_FETCH < (store.index (env.token nq)).length →
    cappedFields env store (store.index (env.token nq)) r) ∧
  (r.mode = Mode.plaintextIndex →
    MAX_RESULT_FETCH < (store.pindex (encodePrefixDocId nq)).length →
    cappedFields env store (store.pindex (encodePrefixDocId nq)) r)

theorem runBlindIndex_eq_of_big (env : Env) (store : Store) (nq : String) (c : CacheStore)
    (t : Nat) (hbig : MAX_RESULT_FETCH < (store.index (env.token nq)).length) :
    (runBlindIndex env store nq c t).1 =
      { mode := Mode.blindIndex
        totalMs := env.tokenMs + env.indexGetMs +
          fetchByIdsMs env ((store.index (env.token nq)).take MAX_RESULT_FETCH) +
          decMapMs env
            (docsByIds store ((store.index (env.token nq)).take MAX_RESULT_FETCH))
        breakdown :=
          { indexMs := env.tokenMs + env.indexGetMs
            fetchMs := fetchByIdsMs env ((store.index (env.token nq)).take MAX_RESULT_FETCH)
            decryptMs := decMapMs env
              (docsByIds store ((store.index (env.token nq)).take MAX_RESULT_FETCH))
            scanMs := 0
            cacheBuildMs := none }
        resultCount := (store.index (env.token nq)).length
        sampleNote := some (fetchNote MAX_RESULT_FETCH (store.index (env.token nq)).length)
        hits := (decMap env
          (docsByIds store ((store.index (env.token nq)).take MAX_RESULT_FETCH))).take
            MAX_HITS } := by
  simp only [runBlindIndex, gt_iff_lt, hbig, if_true]

theorem runPlaintextIndex_eq_of_big (env : Env) (store : Store) (nq : String)
    (c : CacheStore) (t : Nat)
    (hbig : MAX_RESULT_FETCH < (store.pindex (encodePrefixDocId nq)).length) :
    (runPlaintextIndex env store nq c t).1 =
      { mode := Mode.plaintextIndex
        totalMs := env.pindexGetMs +
          fetchByIdsMs env
            ((store.pindex (encodePrefixDocId nq)).take MAX_RESULT_FETCH) +
          decMapMs env
            (docsByIds store
              ((store.pindex (encodePrefixDocId nq)).take MAX_RESULT_FETCH))
        breakdown :=
          { indexMs := env.pindexGetMs
            fetchMs := fetchByIdsMs env
              ((store.pindex (encodePrefixDocId nq)).take MAX_RESULT_FETCH)
            decryptMs := decMapMs env
              (docsByIds store
                ((store.pindex (encodePrefixDocId nq)).take MAX_RESULT_FETCH))
            scanMs := 0
            cacheBuildMs := none }
        resultCount := (store.pindex (encodePrefixDocId nq)).length
        sampleNote := some
          (fetchNote MAX_RESULT_FETCH (store.pindex (encodePrefixDocId nq)).length)
        hits := (decMap env
          (docsByIds store
            ((store.pindex (encodePrefixDocId nq)).take MAX_RESULT_FETCH))).take
              MAX_HITS } := by
  simp only [runPlaintextIndex, gt_iff_lt, hbig, if_true]

theorem runMode_cappingOk (env : Env) (store : Store) (datasetId nq : String) (m : Mode)
    (c : CacheStore) (t : Nat) : cappingOk env store nq (runMode env store datasetId nq m c t).1 := by
  have hm := runMode_mode env store datasetId nq m c t
  cases m with
  | blindIndex =>
    refine ⟨fun _ hbig => ?_, fun h => absurd (hm.symm.trans h) (by decide)⟩
    rw [show runMode env store datasetId nq Mode.blindIndex c t
        = runBlindIndex env store nq c t from rfl,
      runBlindIndex_eq_of_big env store nq c t hbig]
    exact ⟨rfl, by simp,
      ⟨_, rfl, fetchNote_ne_empty _ _⟩, rfl, rfl, rfl⟩
  | plaintextIndex =>
    refine ⟨fun h => absurd (hm.symm.trans h) (by decide), fun _ hbig => ?_⟩
    rw [show runMode env store datasetId nq Mode.plaintextIndex c t
        = runPlaintextIndex env store nq c t from rfl,
      runPlaintextIndex_eq_of_big env store nq c t hbig]
    exact ⟨rfl, by simp,
      ⟨_, rfl, fetchNote_ne_empty _ _⟩, rfl, rfl, rfl⟩
  | decryptScan =>
    exact ⟨fun h => absurd (hm.symm.trans h) (by decide),
      fun h => absurd (hm.symm.trans h) (by decide)⟩
  | clientCache =>
    exact ⟨fun h => absurd (hm.symm.trans h) (by decide),
      fun h => absurd (hm.symm.trans h) (by decide)⟩

/-- C3. Every result of a benchmark run respects the capping policy: in
either index mode, when the bucket holds more than `MAX_RESULT_FETCH`
ids, only the first `MAX_RESULT_FETCH` ids are fetched and decrypted
(hits, fetch and decrypt work are computed from that capped prefix),
`resultCount` still reports the full bucket size, `hits` has at most
`MAX_HITS` entries, and a non-empty `sampleNote` accompanies the
result. -/
theorem benchmark_capping (env : Env) (store : Store) (cache : CacheStore)
    (opts : RunOptions) (t0 : Nat) (r : BenchmarkResult)
    (hr : r ∈ (runBenchmark env store cache opts t0).1) :
    cappingOk env store (normalize opts.query) r := by
  by_cases hq : normalize opts.query = ""
  · rw [runBenchmark_empty env store cache opts t0 hq] at hr
    simp at hr
  · simp only [runBenchmark, if_neg hq] at hr
    obtain ⟨m, c2, t2, _, he⟩ := mem_runModes env store _ _ opts.modes cache _ r hr
    subst he
    exact runMode_cappingOk env store _ _ m c2 t2

/-- Concrete store whose blind-index bucket for the fixed token holds 75
ids (the scenario of the claim). -/
def store75 : Store where
  records := [⟨"r1", "ann", "iv1"⟩]
  index := fun tok => if tok = "tok" then List.replicate 75 "r1" else []
  pindex := fun _ => []

/-- C3 witness: a 75-id bucket under `MAX_RESULT_FETCH = 50` yields
`resultCount = 75` with the capped fields holding concretely. -/
theorem benchmark_capping_witness :
    cappingOk env0 store75 (normalize "An")
      (((runBenchmark env0 store75 emptyCache
        ⟨"people-1k", "An", [Mode.blindIndex], "demo-passphrase", false⟩ 0).1).getD 0
          default) ∧
    (((runBenchmark env0 store75 emptyCache
      ⟨"people-1k", "An", [Mode.blindIndex], "demo-passphrase", false⟩ 0).1).getD 0
        default).resultCount = 75 :=
  ⟨benchmark_capping env0 store75 emptyCache
    ⟨"people-1k", "An", [Mode.blindIndex], "demo-passphrase", false⟩ 0 _ (by decide),
   by decide⟩

/-! ### C5: decrypt-and-scan examines the whole dataset -/

theorem filter_gt_eq_drop (l : List EncDoc)
    (hs : l.Pairwise fun a b => a.id.data < b.id.data)
    (j : Nat) (hj : j < l.length) :
    (l.filter fun r => decide ((l.get ⟨j, hj⟩).id.data < r.id.data)) = l.drop (j + 1) := by
  have hpw := List.pairwise_iff_getElem.mp hs
  set pid := (l.get ⟨j, hj⟩).id.data with hpid
  conv_lhs => rw [← List.take_append_drop (j + 1) l]
  rw [List.filter_append]
  have h1 : ((l.take (j + 1)).filter fun r => decide (pid < r.id.data)) = [] := by
    rw [List.filter_eq_nil_iff]
    intro a ha
    obtain ⟨i, hi, hia⟩ := List.getElem_of_mem ha
    have hi2 : i < j + 1 := by
      have := hi
      rw [List.length_take] at this
      omega
    have hil : i < l.length := by omega
    have hval : a = l.get ⟨i, hil⟩ := by
      rw [← hia, List.get_eq_getElem, List.getElem_take]
    subst hval
    simp only [List.get_eq_getElem, decide_eq_true_eq, hpid]
    rcases Nat.lt_or_ge i j with hij | hij
    · exact fun hlt => absurd (hpw i j hil hj hij) (lt_asymm hlt)
    · have : i = j := by omega
      subst this
      exact lt_irrefl _
  have h2 : ((l.drop (j + 1)).filter fun r => decide (pid < r.id.data)) = l.drop (j + 1) := by
    rw [List.filter_eq_self]
    intro a ha
    obtain ⟨i, hi, hia⟩ := List.getElem_of_mem ha
    have hil : j + 1 + i < l.length := by
      have := hi
      rw [List.length_drop] at this
      omega
    have hval : a = l.get ⟨j + 1 + i, hil⟩ := by
      rw [← hia, List.get_eq_getElem, List.getElem_drop]
    subst hval
    simp only [List.get_eq_getElem, decide_eq_true_eq, hpid]
    exact hpw j (j + 1 + i) hj hil (by omega)
  rw [h1, h2, List.nil_append]

/-- Relation between the pagination cursor and how much of the sorted
store has already been fetched. -/
def cursorRel (store : Store) : Option String → Nat → Prop
  | none, k => k = 0
  | some cid, k =>
    (store.records.filter fun r => decide (cid.data < r.id.data)) = store.records.drop k

theorem fetchAllGo_sorted (env : Env) (store : Store) (pageSize : Nat) (hps : 1 ≤ pageSize)
    (hs : store.records.Pairwise fun a b => a.id.data < b.id.data) :
    ∀ (fuel k : Nat) (cursor : Option String) (acc : List EncDoc) (dur : Nat),
      cursorRel store cursor k →
      store.records.length - k < fuel →
      (fetchAllGo env store pageSize fuel cursor acc dur).1 = acc ++ store.records.drop k ∧
      (fetchAllGo env store pageSize fuel cursor acc dur).2.2 = true := by
  intro fuel
  induction fuel with
  | zero => intro k cursor acc dur _ hfuel; omega
  | succ fuel ih =>
    intro k cursor acc dur hrel hfuel
    have hpage : pageAfter store cursor pageSize = (store.records.drop k).take pageSize := by
      cases cursor with
      | none =>
        have hk : k = 0 := hrel
        show store.records.take pageSize = (store.records.drop k).take pageSize
        rw [hk, List.drop_zero]
      | some cid =>
        have hf : (store.records.filter fun r => decide (cid.data < r.id.data))
            = store.records.drop k := hrel
        show (store.records.filter fun r => decide (cid.data < r.id.data)).take pageSize
          = (store.records.drop k).take pageSize
        rw [hf]
    simp only [fetchAllGo, hpage]
    by_cases hshort : ((store.records.drop k).take pageSize).length < pageSize
    · rw [if_pos hshort]
      have hall : (store.records.drop k).take pageSize = store.records.drop k := by
        rw [List.length_take, List.length_drop] at hshort
        exact List.take_of_length_le (by rw [List.length_drop]; omega)
      rw [hall]
      constructor <;> trivial
    · rw [if_neg hshort]
      have hlen : ((store.records.drop k).take pageSize).length = pageSize := by
        rw [List.length_take, List.length_drop] at hshort ⊢
        omega
      have hfull : pageSize ≤ store.records.length - k := by
        rw [List.length_take, List.length_drop] at hshort
        omega
      cases hlast : ((store.records.drop k).take pageSize).getLast? with
      | none =>
        rw [List.getLast?_eq_none_iff] at hlast
        rw [hlast] at hlen
        simp at hlen
        omega
      | some lastDoc =>
        have hj : k + (pageSize - 1) < store.records.length := by omega
        have hlastval : lastDoc = store.records.get ⟨k + (pageSize - 1), hj⟩ := by
          rw [List.getLast?_eq_getElem?, hlen] at hlast
          have hps1 : pageSize - 1 < ((store.records.drop k).take pageSize).length := by
            rw [hlen]
            omega
          rw [List.getElem?_eq_getElem hps1] at hlast
          have hval := Option.some.inj hlast
          rw [List.getElem_take, List.getElem_drop] at hval
          rw [List.get_eq_getElem]
          exact hval.symm
        have hrel2 : cursorRel store (some lastDoc.id) (k + pageSize) := by
          show (store.records.filter fun r => decide (lastDoc.id.data < r.id.data))
            = store.records.drop (k + pageSize)
          rw [hlastval]
          have hdrop := filter_gt_eq_drop store.records hs (k + (pageSize - 1)) hj
          rw [show k + (pageSize - 1) + 1 = k + pageSize from by omega] at hdrop
          exact hdrop
        have hfuel2 : store.records.length - (k + pageSize) < fuel := by omega
        obtain ⟨h1, h2⟩ := ih (k + pageSize) (some lastDoc.id)
          (acc ++ (store.records.drop k).take pageSize) (dur + env.pageGetMs cursor)
          hrel2 hfuel2
        refine ⟨?_, h2⟩
        rw [h1, List.append_assoc]
        congr 1
        rw [show store.records.drop (k + pageSize) = (store.records.drop k).drop pageSize
            from by rw [List.drop_drop]]
        exact List.take_append_drop _ _

theorem fetchAllRecords_sorted (env : Env) (store : Store) (pageSize : Nat)
    (hps : 1 ≤ pageSize) (hs : store.records.Pairwise fun a b => a.id.data < b.id.data) :
    (fetchAllRecords env store pageSize).1 = store.records ∧
    (fetchAllRecords env store pageSize).2.2 = true := by
  have h := fetchAllGo_sorted env store pageSize hps hs (store.records.length + 1) 0
    none [] 0 rfl (by omega)
  simpa [fetchAllRecords] using h

theorem runDecryptScan_fields (env : Env) (store : Store) (nq : String) (c : CacheStore)
    (t : Nat) (hdocs : (fetchAllRecords env store FULL_SCAN_PAGE_SIZE).1 = store.records) :
    (runDecryptScan env store nq c t).1.resultCount
        = ((decMap env store.records).filter (matchesQuery nq)).length ∧
    (runDecryptScan env store nq c t).1.hits
        = ((decMap env store.records).filter (matchesQuery nq)).take MAX_HITS ∧
    (runDecryptScan env store nq c t).1.sampleNote = none := by
  simp only [runDecryptScan, hdocs]
  refine ⟨?_, ?_, ?_⟩ <;> trivial

/-- C5. With the store's records strictly ordered by id (the
`documentId()` ordering Firestore guarantees), the decrypt-and-scan mode
paginates to exhaustion — the cursor loop terminates by a short page and
collects exactly the full record set — then decrypts every fetched record
and filters by the normalized-prefix predicate: its result counts and
hits are computed over the whole dataset, with no sampling
(`sampleNote = none`). -/
theorem decrypt_scan_exhaustive (env : Env) (store : Store) (cache : CacheStore)
    (opts : RunOptions) (t0 : Nat)
    (hsorted : store.records.Pairwise fun a b => a.id.data < b.id.data) :
    ((fetchAllRecords env store FULL_SCAN_PAGE_SIZE).1 = store.records ∧
      (fetchAllRecords env store FULL_SCAN_PAGE_SIZE).2.2 = true) ∧
    ∀ r ∈ (runBenchmark env store cache opts t0).1, r.mode = Mode.decryptScan →
      r.resultCount = ((decMap env store.records).filter
        (matchesQuery (normalize opts.query))).length ∧
      r.hits = ((decMap env store.records).filter
        (matchesQuery (normalize opts.query))).take MAX_HITS ∧
      r.sampleNote = none := by
  have hfull := fetchAllRecords_sorted env store FULL_SCAN_PAGE_SIZE (by decide) hsorted
  refine ⟨hfull, ?_⟩
  intro r hr hmode
  by_cases hq : normalize opts.query = ""
  · rw [runBenchmark_empty env store cache opts t0 hq] at hr
    simp at hr
  · simp only [runBenchmark, if_neg hq] at hr
    obtain ⟨m, c2, t2, _, he⟩ := mem_runModes env store _ _ opts.modes cache _ r hr
    have hm := runMode_mode env store opts.datasetId (normalize opts.query) m c2 t2
    rw [← he, hmode] at hm
    subst hm
    subst he
    exact runDecryptScan_fields env store (normalize opts.query) c2 t2 hfull.1

/-- C5 witness: the exhaustive-scan contract evaluated on the concrete
sorted two-record store. -/
theorem decrypt_scan_exhaustive_witness :
    ((fetchAllRecords env0 store0 FULL_SCAN_PAGE_SIZE).1 = store0.records ∧
      (fetchAllRecords env0 store0 FULL_SCAN_PAGE_SIZE).2.2 = true) ∧
    ∀ r ∈ (runBenchmark env0 store0 emptyCache
        ⟨"people-1k", "An", [Mode.decryptScan], "demo-passphrase", false⟩ 0).1,
      r.mode = Mode.decryptScan →
      r.resultCount = ((decMap env0 store0.records).filter
        (matchesQuery (normalize "An"))).length ∧
      r.hits = ((decMap env0 store0.records).filter
        (matchesQuery (normalize "An"))).take MAX_HITS ∧
      r.sampleNote = none :=
  decrypt_scan_exhaustive env0 store0 emptyCache
    ⟨"people-1k", "An", [Mode.decryptScan], "demo-passphrase", false⟩ 0 (by decide)

/-! ### C4: consecutive client-cache runs -/

/-- Page fetched by a cold cache build. -/
def coldPage (store : Store) (datasetId : String) : List EncDoc :=
  store.records.take (min (getDatasetSize datasetId) CACHE_CAP)

/-- Build time reported by a cold cache build. -/
def coldBuildMs (env : Env) (store : Store) (datasetId : String) : Nat :=
  env.cachePageMs (min (getDatasetSize datasetId) CACHE_CAP) +
    decMapMs env (coldPage store datasetId)

/-- Snapshot persisted by a cold cache build started at clock `t`. -/
def coldCached (env : Env) (store : Store) (datasetId : String) (t : Nat) : CachedDataset where
  datasetId := datasetId
  records := decMap env (coldPage store datasetId)
  builtAt := t + env.cacheGetMs + coldBuildMs env store datasetId
  recordCount := (decMap env (coldPage store datasetId)).length
  cap := CACHE_CAP
  buildMs := some (coldBuildMs env store datasetId)

theorem runModes_single (env : Env) (store : Store) (datasetId nq : String) (m : Mode)
    (c : CacheStore) (t : Nat) :
    runModes env store datasetId nq [m] c t
      = ([(runMode env store datasetId nq m c t).1],
        (runMode env store datasetId nq m c t).2.1,
        (runMode env store datasetId nq m c t).2.2) := rfl

theorem runClientCache_warm_eq (env : Env) (store : Store) (datasetId nq : String)
    (c : CacheStore) (t : Nat) (cached : CachedDataset) (hc : c datasetId = some cached) :
    runClientCache env store datasetId nq c t =
      ({ mode := Mode.clientCache
         totalMs := env.cacheGetMs + env.scanWorkMs cached.records.length
         breakdown :=
          { indexMs := 0, fetchMs := env.cacheGetMs, decryptMs := 0,
            scanMs := env.scanWorkMs cached.records.length, cacheBuildMs := cached.buildMs }
         resultCount := (searchCache cached.records nq).length
         sampleNote :=
          if getDatasetSize datasetId > cached.recordCount
          then some (partialCacheNote cached.recordCount) else none
         hits := (searchCache cached.records nq).take MAX_HITS },
       c, t + env.cacheGetMs + env.scanWorkMs cached.records.length) := by
  simp only [runClientCache, hc]

theorem runClientCache_cold_eq (env : Env) (store : Store) (datasetId nq : String)
    (c : CacheStore) (t : Nat) (hc : c datasetId = none) :
    runClientCache env store datasetId nq c t =
      ({ mode := Mode.clientCache
         totalMs := coldBuildMs env store datasetId +
          env.scanWorkMs (decMap env (coldPage store datasetId)).length
         breakdown :=
          { indexMs := 0
            fetchMs := env.cachePageMs (min (getDatasetSize datasetId) CACHE_CAP)
            decryptMs := decMapMs env (coldPage store datasetId)
            scanMs := env.scanWorkMs (decMap env (coldPage store datasetId)).length
            cacheBuildMs := some (coldBuildMs env store datasetId) }
         resultCount := (searchCache (decMap env (coldPage store datasetId)) nq).length
         sampleNote := if getDatasetSize datasetId > CACHE_CAP then some capNote else none
         hits := (searchCache (decMap env (coldPage store datasetId)) nq).take MAX_HITS },
       fun k => if k = datasetId then some (coldCached env store datasetId t) else c k,
       t + env.cacheGetMs + coldBuildMs env store datasetId + env.cachePutMs +
        env.scanWorkMs (decMap env (coldPage store datasetId)).length) := by
  simp only [runClientCache, hc, coldPage, coldBuildMs, coldCached]

/-- C4 (amended). A second client-cache run against the same dataset with
no intervening clear reuses the persisted snapshot: it decrypts nothing
(`decryptMs = 0`), reports the cache-read duration — not 0 — under
`breakdown.fetchMs` (the source reassigns `fetchMs = cacheReadMs` on the
warm path), writes nothing back, and returns the same `resultCount` as
the first run, both counts being the scan of the persisted snapshot. -/
theorem cache_reuse_amended (env : Env) (store : Store) (c : CacheStore) (opts : RunOptions)
    (t0 t1 : Nat) (hmodes : opts.modes = [Mode.clientCache])
    (hq : normalize opts.query ≠ "") :
    ∃ r1 r2 d,
      (runBenchmark env store c opts t0).1 = [r1] ∧
      (runBenchmark env store (runBenchmark env store c opts t0).2.1 opts t1).1 = [r2] ∧
      (runBenchmark env store c opts t0).2.1 opts.datasetId = some d ∧
      (runBenchmark env store (runBenchmark env store c opts t0).2.1 opts t1).2.1
        = (runBenchmark env store c opts t0).2.1 ∧
      r2.breakdown.fetchMs = env.cacheGetMs ∧
      r2.breakdown.decryptMs = 0 ∧
      r2.resultCount = (searchCache d.records (normalize opts.query)).length ∧
      r1.resultCount = r2.resultCount := by
  simp only [runBenchmark, if_neg hq, hmodes]
  rw [runModes_single, runModes_single]
  show ∃ r1 r2 d,
    [(runMode env store opts.datasetId (normalize opts.query) Mode.clientCache c
      (t0 + env.kdfMs)).1] = [r1] ∧ _
  cases hc : c opts.datasetId with
  | none =>
    rw [show runMode env store opts.datasetId (normalize opts.query) Mode.clientCache c
        (t0 + env.kdfMs) = runClientCache env store opts.datasetId (normalize opts.query) c
        (t0 + env.kdfMs) from rfl,
      runClientCache_cold_eq env store opts.datasetId (normalize opts.query) c
        (t0 + env.kdfMs) hc]
    have hc2 : (fun k => if k = opts.datasetId
        then some (coldCached env store opts.datasetId (t0 + env.kdfMs)) else c k)
        opts.datasetId
        = some (coldCached env store opts.datasetId (t0 + env.kdfMs)) := by simp
    rw [show runMode env store opts.datasetId (normalize opts.query) Mode.clientCache
        (fun k => if k = opts.datasetId
          then some (coldCached env store opts.datasetId (t0 + env.kdfMs)) else c k)
        (t1 + env.kdfMs)
        = runClientCache env store opts.datasetId (normalize opts.query)
          (fun k => if k = opts.datasetId
            then some (coldCached env store opts.datasetId (t0 + env.kdfMs)) else c k)
          (t1 + env.kdfMs) from rfl,
      runClientCache_warm_eq env store opts.datasetId (normalize opts.query) _
        (t1 + env.kdfMs) _ hc2]
    exact ⟨_, _, coldCached env store opts.datasetId (t0 + env.kdfMs),
      rfl, rfl, hc2, rfl, rfl, rfl, rfl, rfl⟩
  | some cached =>
    rw [show runMode env store opts.datasetId (normalize opts.query) Mode.clientCache c
        (t0 + env.kdfMs) = runClientCache env store opts.datasetId (normalize opts.query) c
        (t0 + env.kdfMs) from rfl,
      runClientCache_warm_eq env store opts.datasetId (normalize opts.query) c
        (t0 + env.kdfMs) cached hc]
    rw [show runMode env store opts.datasetId (normalize opts.query) Mode.clientCache c
        (t1 + env.kdfMs) = runClientCache env store opts.datasetId (normalize opts.query) c
        (t1 + env.kdfMs) from rfl,
      runClientCache_warm_eq env store opts.datasetId (normalize opts.query) c
        (t1 + env.kdfMs) cached hc]
    exact ⟨_, _, cached, rfl, rfl, hc, rfl, rfl, rfl, rfl, rfl⟩

/-- C4 witness: two consecutive client-cache runs on the concrete
fixtures (first run cold, second warm). -/
theorem cache_reuse_amended_witness :
    ∃ r1 r2 d,
      (runBenchmark env0 store0 emptyCache
        ⟨"people-1k", "An", [Mode.clientCache], "demo-passphrase", false⟩ 0).1 = [r1] ∧
      (runBenchmark env0 store0
        (runBenchmark env0 store0 emptyCache
          ⟨"people-1k", "An", [Mode.clientCache], "demo-passphrase", false⟩ 0).2.1
        ⟨"people-1k", "An", [Mode.clientCache], "demo-passphrase", false⟩ 0).1 = [r2] ∧
      (runBenchmark env0 store0 emptyCache
        ⟨"people-1k", "An", [Mode.clientCache], "demo-passphrase", false⟩ 0).2.1
        "people-1k" = some d ∧
      (runBenchmark env0 store0
        (runBenchmark env0 store0 emptyCache
          ⟨"people-1k", "An", [Mode.clientCache], "demo-passphrase", false⟩ 0).2.1
        ⟨"people-1k", "An", [Mode.clientCache], "demo-passphrase", false⟩ 0).2.1
        = (runBenchmark env0 store0 emptyCache
          ⟨"people-1k", "An", [Mode.clientCache], "demo-passphrase", false⟩ 0).2.1 ∧
      r2.breakdown.fetchMs = env0.cacheGetMs ∧
      r2.breakdown.decryptMs = 0 ∧
      r2.resultCount = (searchCache d.records (normalize "An")).length ∧
      r1.resultCount = r2.resultCount :=
  cache_reuse_amended env0 store0 emptyCache
    ⟨"people-1k", "An", [Mode.clientCache], "demo-passphrase", false⟩ 0 0 rfl (by decide)

/-- C4 counterexample: on the second (warm) run the engine reports the
cache-read time under `fetchMs`, so `breakdown.fetchMs == 0` fails as
stated (while `decryptMs == 0` does hold). -/
theorem cache_reuse_counterexample :
    ((runBenchmark env0 store0
        (runBenchmark env0 store0 emptyCache
          ⟨"people-1k", "An", [Mode.clientCache], "demo-passphrase", false⟩ 0).2.1
        ⟨"people-1k", "An", [Mode.clientCache], "demo-passphrase", false⟩ 0).1.getD 0
          default).breakdown.decryptMs = 0 ∧
    ((runBenchmark env0 store0
        (runBenchmark env0 store0 emptyCache
          ⟨"people-1k", "An", [Mode.clientCache], "demo-passphrase", false⟩ 0).2.1
        ⟨"people-1k", "An", [Mode.clientCache], "demo-passphrase", false⟩ 0).1.getD 0
          default).breakdown.fetchMs ≠ 0 := by
  decide

end EncryptedSearch
